import Mathlib

set_option maxRecDepth 100000

/-!
Verification development for the plexctl streaming CLI
(source: cmd/plexctl/main.go).

The embedding models:
- the SSE event reassembler (processSSEChunk / appendSSEChunk),
- the stream read loop and its termination checks (readSSE / checkEventEnd),
- the filesystem-backed thread store (FSStore.Load / FSStore.Save) with its
  JSON encoding (json.MarshalIndent / json.Unmarshal),
- the path-safety check (checkPath) over lexically cleaned paths
  (filepath.Abs / filepath.Clean on a Unix separator),
- the paced printer goroutine and its bounded channel
  (startSmoothPrinter) as an interleaving step relation.

Byte strings are modelled as Lean strings / lists of characters; Go byte
slices carrying UTF-8 text correspond to the character sequences used here.
-/

namespace Plexctl

/-! ### JSON lexing shared by both decoders

Go's encoding/json is the decoder used by the source both for SSE chunks
(json.Unmarshal into sseChunk) and for stored threads (json.Unmarshal into
Thread).  The functions below model the relevant fragment: whitespace
skipping, JSON string literals with escapes, and generic value skipping for
unknown object keys (encoding/json ignores unknown fields). -/

def isWsChar (c : Char) : Bool :=
  c == ' ' || c == '\t' || c == '\n' || c == '\r'

def skipWs : List Char → List Char
  | [] => []
  | c :: rest => if isWsChar c then skipWs rest else c :: rest

def hexDigitVal (c : Char) : Option Nat :=
  if '0' ≤ c ∧ c ≤ '9' then some (c.toNat - 48)
  else if 'a' ≤ c ∧ c ≤ 'f' then some (c.toNat - 87)
  else if 'A' ≤ c ∧ c ≤ 'F' then some (c.toNat - 55)
  else none

/-- Decode a \uXXXX escape given its four hex digit characters. -/
def hexChar4 (a b c d : Char) : Option Char :=
  match hexDigitVal a, hexDigitVal b, hexDigitVal c, hexDigitVal d with
  | some ha, some hb, some hc, some hd =>
    let n := ((ha * 16 + hb) * 16 + hc) * 16 + hd
    if Nat.isValidChar n then some (Char.ofNat n) else none
  | _, _, _, _ => none

/-- Parse the body of a JSON string literal (the opening quote already
consumed), accumulating decoded characters in reverse.  Mirrors Go's
string decoding: the standard single-character escapes, \uXXXX, and a
rejection of raw control characters below 0x20. -/
def parseJStringBody : List Char → List Char → Option (String × List Char)
  | _, [] => none
  | acc, '\\' :: '"' :: rest => parseJStringBody ('"' :: acc) rest
  | acc, '\\' :: '\\' :: rest => parseJStringBody ('\\' :: acc) rest
  | acc, '\\' :: '/' :: rest => parseJStringBody ('/' :: acc) rest
  | acc, '\\' :: 'b' :: rest => parseJStringBody ('\x08' :: acc) rest
  | acc, '\\' :: 'f' :: rest => parseJStringBody ('\x0c' :: acc) rest
  | acc, '\\' :: 'n' :: rest => parseJStringBody ('\n' :: acc) rest
  | acc, '\\' :: 'r' :: rest => parseJStringBody ('\r' :: acc) rest
  | acc, '\\' :: 't' :: rest => parseJStringBody ('\t' :: acc) rest
  | acc, '\\' :: 'u' :: a :: b :: c :: d :: rest =>
    match hexChar4 a b c d with
    | some ch => parseJStringBody (ch :: acc) rest
    | none => none
  | _, '\\' :: _ => none
  | acc, c :: rest =>
    if c = '"' then some (String.mk acc.reverse, rest)
    else if c.toNat < 32 then none
    else parseJStringBody (c :: acc) rest

/-- Consume the tail of a JSON number (lenient superset of Go's grammar;
only used to skip numeric values of unknown fields). -/
def skipNumTail : List Char → List Char
  | [] => []
  | c :: rest =>
    if c.isDigit || c == '.' || c == 'e' || c == 'E' || c == '+' || c == '-' then
      skipNumTail rest
    else c :: rest

mutual

/-- Skip one JSON value (used for unknown object keys, which
encoding/json ignores). -/
def skipJValue : Nat → List Char → Option (List Char)
  | 0, _ => none
  | fuel + 1, cs =>
    match skipWs cs with
    | '"' :: rest => (parseJStringBody [] rest).map Prod.snd
    | '\x7b' :: rest => skipJMembers fuel rest false
    | '[' :: rest => skipJItems fuel rest false
    | 't' :: 'r' :: 'u' :: 'e' :: rest => some rest
    | 'f' :: 'a' :: 'l' :: 's' :: 'e' :: rest => some rest
    | 'n' :: 'u' :: 'l' :: 'l' :: rest => some rest
    | c :: rest => if c == '-' || c.isDigit then some (skipNumTail rest) else none
    | [] => none

/-- Skip the members of a JSON object after the opening brace. -/
def skipJMembers : Nat → List Char → Bool → Option (List Char)
  | 0, _, _ => none
  | fuel + 1, cs, reqMember =>
    match skipWs cs with
    | '\x7d' :: rest => if reqMember then none else some rest
    | '"' :: rest =>
      match parseJStringBody [] rest with
      | none => none
      | some (_, rest1) =>
        match skipWs rest1 with
        | ':' :: rest2 =>
          match skipJValue fuel rest2 with
          | none => none
          | some rest3 =>
            match skipWs rest3 with
            | ',' :: rest4 => skipJMembers fuel rest4 true
            | '\x7d' :: rest4 => some rest4
            | _ => none
        | _ => none
    | _ => none

/-- Skip the items of a JSON array after the opening bracket. -/
def skipJItems : Nat → List Char → Bool → Option (List Char)
  | 0, _, _ => none
  | fuel + 1, cs, reqItem =>
    match skipWs cs with
    | ']' :: rest => if reqItem then none else some rest
    | _ =>
      match skipJValue fuel cs with
      | none => none
      | some rest =>
        match skipWs rest with
        | ',' :: rest2 => skipJItems fuel rest2 true
        | ']' :: rest2 => some rest2
        | _ => none

end

/-! ### The SSE chunk data model (sseDelta / sseChoice / sseChunk) -/

structure SSEDelta where
  content : String
  deriving DecidableEq

structure SSEChoice where
  delta : SSEDelta
  finishReason : String
  deriving DecidableEq

structure SSEChunk where
  choices : List SSEChoice
  citations : List String
  deriving DecidableEq

/-- Parse the members of a "delta" object, mirroring json.Unmarshal into
sseDelta: the "content" key is a string, every other key is skipped. -/
def parseDeltaFields : Nat → List Char → SSEDelta → Bool → Option (SSEDelta × List Char)
  | 0, _, _, _ => none
  | fuel + 1, cs, acc, reqMember =>
    match skipWs cs with
    | '\x7d' :: rest => if reqMember then none else some (acc, rest)
    | '"' :: rest =>
      match parseJStringBody [] rest with
      | none => none
      | some (key, rest1) =>
        match skipWs rest1 with
        | ':' :: rest2 =>
          let step : Option (SSEDelta × List Char) :=
            if key = "content" then
              match skipWs rest2 with
              | '"' :: rest3 =>
                (parseJStringBody [] rest3).map (fun p => ({ content := p.1 }, p.2))
              | 'n' :: 'u' :: 'l' :: 'l' :: rest3 => some (acc, rest3)
              | _ => none
            else (skipJValue fuel rest2).map (fun r => (acc, r))
          match step with
          | none => none
          | some (acc1, rest3) =>
            match skipWs rest3 with
            | ',' :: rest4 => parseDeltaFields fuel rest4 acc1 true
            | '\x7d' :: rest4 => some (acc1, rest4)
            | _ => none
        | _ => none
    | _ => none

/-- Parse the members of a choice object, mirroring json.Unmarshal into
sseChoice: "delta" is an object, "finish_reason" a string, others skipped. -/
def parseChoiceFields : Nat → List Char → SSEChoice → Bool → Option (SSEChoice × List Char)
  | 0, _, _, _ => none
  | fuel + 1, cs, acc, reqMember =>
    match skipWs cs with
    | '\x7d' :: rest => if reqMember then none else some (acc, rest)
    | '"' :: rest =>
      match parseJStringBody [] rest with
      | none => none
      | some (key, rest1) =>
        match skipWs rest1 with
        | ':' :: rest2 =>
          let step : Option (SSEChoice × List Char) :=
            if key = "delta" then
              match skipWs rest2 with
              | '\x7b' :: rest3 =>
                (parseDeltaFields fuel rest3 acc.delta false).map
                  (fun p => ({ acc with delta := p.1 }, p.2))
              | 'n' :: 'u' :: 'l' :: 'l' :: rest3 => some (acc, rest3)
              | _ => none
            else if key = "finish_reason" then
              match skipWs rest2 with
              | '"' :: rest3 =>
                (parseJStringBody [] rest3).map
                  (fun p => ({ acc with finishReason := p.1 }, p.2))
              | 'n' :: 'u' :: 'l' :: 'l' :: rest3 => some (acc, rest3)
              | _ => none
            else (skipJValue fuel rest2).map (fun r => (acc, r))
          match step with
          | none => none
          | some (acc1, rest3) =>
            match skipWs rest3 with
            | ',' :: rest4 => parseChoiceFields fuel rest4 acc1 true
            | '\x7d' :: rest4 => some (acc1, rest4)
            | _ => none
        | _ => none
    | _ => none

/-- Parse the items of the "choices" array. -/
def parseChoiceItems : Nat → List Char → Bool → Option (List SSEChoice × List Char)
  | 0, _, _ => none
  | fuel + 1, cs, reqItem =>
    match skipWs cs with
    | ']' :: rest => if reqItem then none else some ([], rest)
    | '\x7b' :: rest =>
      match parseChoiceFields fuel rest { delta := { content := "" }, finishReason := "" } false with
      | none => none
      | some (c, rest1) =>
        match skipWs rest1 with
        | ',' :: rest2 => (parseChoiceItems fuel rest2 true).map (fun p => (c :: p.1, p.2))
        | ']' :: rest2 => some ([c], rest2)
        | _ => none
    | _ => none

/-- Parse the items of the "citations" array (strings). -/
def parseJStrItems : Nat → List Char → Bool → Option (List String × List Char)
  | 0, _, _ => none
  | fuel + 1, cs, reqItem =>
    match skipWs cs with
    | ']' :: rest => if reqItem then none else some ([], rest)
    | '"' :: rest =>
      match parseJStringBody [] rest with
      | none => none
      | some (s, rest1) =>
        match skipWs rest1 with
        | ',' :: rest2 => (parseJStrItems fuel rest2 true).map (fun p => (s :: p.1, p.2))
        | ']' :: rest2 => some ([s], rest2)
        | _ => none
    | _ => none

/-- Parse the members of the top-level chunk object, mirroring
json.Unmarshal into sseChunk: "choices" is an array of choice objects,
"citations" an array of strings, every other key skipped. -/
def parseChunkFields : Nat → List Char → SSEChunk → Bool → Option (SSEChunk × List Char)
  | 0, _, _, _ => none
  | fuel + 1, cs, acc, reqMember =>
    match skipWs cs with
    | '\x7d' :: rest => if reqMember then none else some (acc, rest)
    | '"' :: rest =>
      match parseJStringBody [] rest with
      | none => none
      | some (key, rest1) =>
        match skipWs rest1 with
        | ':' :: rest2 =>
          let step : Option (SSEChunk × List Char) :=
            if key = "choices" then
              match skipWs rest2 with
              | '[' :: rest3 =>
                (parseChoiceItems fuel rest3 false).map
                  (fun p => ({ acc with choices := p.1 }, p.2))
              | 'n' :: 'u' :: 'l' :: 'l' :: rest3 => some (acc, rest3)
              | _ => none
            else if key = "citations" then
              match skipWs rest2 with
              | '[' :: rest3 =>
                (parseJStrItems fuel rest3 false).map
                  (fun p => ({ acc with citations := p.1 }, p.2))
              | 'n' :: 'u' :: 'l' :: 'l' :: rest3 => some (acc, rest3)
              | _ => none
            else (skipJValue fuel rest2).map (fun r => (acc, r))
          match step with
          | none => none
          | some (acc1, rest3) =>
            match skipWs rest3 with
            | ',' :: rest4 => parseChunkFields fuel rest4 acc1 true
            | '\x7d' :: rest4 => some (acc1, rest4)
            | _ => none
        | _ => none
    | _ => none

/-- Model of json.Unmarshal(buf, &chunk) for the sseChunk shape: the whole
input must be a single JSON value (an object, or null which leaves the
zero chunk) followed only by whitespace; otherwise decoding fails. -/
def decodeSSE (cs : List Char) : Option SSEChunk :=
  let fuel := cs.length + 1
  match skipWs cs with
  | '\x7b' :: rest =>
    match parseChunkFields fuel rest { choices := [], citations := [] } false with
    | none => none
    | some (c, rest1) => if skipWs rest1 = [] then some c else none
  | 'n' :: 'u' :: 'l' :: 'l' :: rest =>
    if skipWs rest = [] then some { choices := [], citations := [] } else none
  | _ => none

/-! ### The event reassembler (processSSEChunk / appendSSEChunk) and the
read loop (readSSE / checkEventEnd) -/

/-- Does cs start with pat? (strings.HasPrefix at the byte level.) -/
def leadsWith : List Char → List Char → Bool
  | [], _ => true
  | _ :: _, [] => false
  | p :: ps, c :: cs => p == c && leadsWith ps cs

/-- First index of pat inside cs, bytes.Index; none plays the role of -1. -/
def findSubIdx (pat : List Char) : List Char → Option Nat
  | [] => if pat.isEmpty then some 0 else none
  | c :: rest =>
    if leadsWith pat (c :: rest) then some 0
    else (findSubIdx pat rest).map (· + 1)

/-- Does cs contain pat as a contiguous substring? (bytes.Contains.) -/
def hasSub (pat cs : List Char) : Bool :=
  (findSubIdx pat cs).isSome

/-- The SSE data-prefix marker, "data: " (ssePrefixDataSize = 6 bytes). -/
def dataMarker : List Char := "data: ".data

/-- appendSSEChunk: the payload contributed by one raw frame.  If the
marker is absent the whole frame is the payload; otherwise the payload is
the bytes after the first occurrence of the marker. -/
def payloadOf (raw : List Char) : List Char :=
  match findSubIdx dataMarker raw with
  | none => raw
  | some i => raw.drop (i + 6)

/-- Working state of one streaming call: the rolling reassembly buffer,
the accumulated response text (strings.Builder final), the last-seen
citation list, the runes forwarded to the pacing channel, and the trace of
Structured Chunks decoded so far (the emissions). -/
structure ProcState where
  buf : List Char
  finalText : String
  citations : List String
  printed : List Char
  emitted : List SSEChunk
  deriving DecidableEq

def initState : ProcState :=
  { buf := [], finalText := "", citations := [], printed := [], emitted := [] }

/-- Content delta carried by a chunk: the first choice's delta content,
or empty when the choices list is empty. -/
def contentOf (c : SSEChunk) : String :=
  match c.choices with
  | [] => ""
  | ch :: _ => ch.delta.content

/-- The decode-success branch of processSSEChunk: reset the buffer, adopt
a non-empty citation list, append the content delta to the final text and
forward its runes to the pacing channel. -/
def emitChunk (st : ProcState) (c : SSEChunk) : ProcState :=
  { buf := []
    finalText := st.finalText ++ contentOf c
    citations := if c.citations.length > 0 then c.citations else st.citations
    printed := st.printed ++ (contentOf c).data
    emitted := st.emitted ++ [c] }

/-- processSSEChunk: an empty frame contributes nothing; otherwise the
frame's payload is appended to the rolling buffer, and the buffer is
decoded — failure keeps the buffer for the next call, success emits the
chunk.  (The cancellation path of the rune-forwarding loop is not
modelled; no claim quantifies over cancellation of this step.) -/
def processSSEChunk (st : ProcState) (raw : List Char) : ProcState :=
  if raw.isEmpty then st
  else
    let buf1 := st.buf ++ payloadOf raw
    match decodeSSE buf1 with
    | none => { st with buf := buf1 }
    | some c => emitChunk st c

def processFrames (st : ProcState) : List (List Char) → ProcState
  | [] => st
  | raw :: rest => processFrames (processSSEChunk st raw) rest

/-- One observation from the transport: a raw frame, end of the stream
(io.EOF from ReadEvent), or a read error. -/
inductive SSEEvent where
  | frame (raw : List Char)
  | eofEnd
  | readErr (msg : String)
  deriving DecidableEq

/-- The [DONE] completion sentinel token. -/
def doneMarker : List Char := "[DONE]".data

inductive EndCheck where
  | endClean
  | endFail (msg : String)
  | keepGoing (raw : List Char)
  deriving DecidableEq

/-- checkEventEnd: EOF is a clean end; any other read error is a failing
end; a frame containing the [DONE] sentinel anywhere is a clean end;
otherwise the loop keeps going with the raw frame. -/
def checkEventEnd : SSEEvent → EndCheck
  | .eofEnd => .endClean
  | .readErr m => .endFail m
  | .frame raw => if hasSub doneMarker raw then .endClean else .keepGoing raw

/-- Outcome of the read loop on a finite list of transport events: done
with a result, or still running (the Go loop would block for the next
event) with the state reached so far. -/
inductive StreamOutcome where
  | done (r : Except String (String × List String))
  | running (st : ProcState)

/-- The readSSE loop: each event is first routed through checkEventEnd; a
clean end returns the accumulated text and citations as the successful
result, a failing end returns an error, and otherwise the frame goes
through processSSEChunk and the loop continues. -/
def readSSEAux (st : ProcState) : List SSEEvent → StreamOutcome
  | [] => .running st
  | ev :: rest =>
    match checkEventEnd ev with
    | .endClean => .done (.ok (st.finalText, st.citations))
    | .endFail m => .done (.error ("SSE read: " ++ m))
    | .keepGoing raw => readSSEAux (processSSEChunk st raw) rest

def readSSE (evs : List SSEEvent) : StreamOutcome :=
  readSSEAux initState evs

/-- Does the loop outcome correspond to the DONE terminal state? -/
def isDone : StreamOutcome → Bool
  | .done _ => true
  | .running _ => false

/-- Events that do not terminate the read loop: ordinary frames without
the [DONE] sentinel. -/
def nonTerminalEvent : SSEEvent → Bool
  | .frame raw => !(hasSub doneMarker raw)
  | .eofEnd => false
  | .readErr _ => false

/-- A data frame decoding to a chunk whose finish indicator is set. -/
def finishFrame : List Char :=
  "data: \x7b\"choices\":[\x7b\"delta\":\x7b\"content\":\"\"\x7d,\"finish_reason\":\"stop\"\x7d]\x7d".data

/-! ### C6: last-non-empty-wins citation accumulation -/

/-- The last non-empty citation list carried by a sequence of Structured
Chunks, if any chunk carries one. -/
def lastNonEmptyCitList : List SSEChunk → Option (List String)
  | [] => none
  | c :: rest =>
    match lastNonEmptyCitList rest with
    | some r => some r
    | none => if c.citations ≠ [] then some c.citations else none

/-- The per-chunk citation update performed by processSSEChunk: a
non-empty list replaces the working list wholesale, an empty list leaves
it unchanged. -/
def citStep (acc : List String) (c : SSEChunk) : List String :=
  if c.citations.length > 0 then c.citations else acc

/-- A fragment f contributes the payload piece p when either f is the
marker-prefixed form "data: " ++ p (the marker is then found at index 0
and stripped), or f is a bare continuation equal to p containing no
occurrence of the marker (the whole frame is then the payload). -/
def fragCarries (f p : List Char) : Prop :=
  f = dataMarker ++ p ∨ (f = p ∧ hasSub dataMarker f = false)

/-! ### C5: the path-safety check (checkPath) -/

/-- Split a path into its separator-delimited components. -/
def splitComps (acc : List Char) : List Char → List String
  | [] => [String.mk acc.reverse]
  | '/' :: rest => String.mk acc.reverse :: splitComps [] rest
  | c :: rest => splitComps (c :: acc) rest

/-- The component-stack walk at the heart of filepath.Clean: empty and
"." components vanish, ".." pops a normal component, is dropped at the
root, and is kept when nothing is left to pop in a relative path. -/
def cleanStack (rooted : Bool) : List String → List String → List String
  | stack, [] => stack
  | stack, comp :: rest =>
    if comp = "" ∨ comp = "." then cleanStack rooted stack rest
    else if comp = ".." then
      match stack with
      | [] =>
        if rooted then cleanStack rooted [] rest
        else cleanStack rooted [".."] rest
      | top :: below =>
        if top = ".." then cleanStack rooted (".." :: top :: below) rest
        else cleanStack rooted below rest
    else cleanStack rooted (comp :: stack) rest

def joinComps : List String → String
  | [] => ""
  | [c] => c
  | c :: rest => c ++ "/" ++ joinComps rest

def isRootedPath (p : String) : Bool :=
  match p.data with
  | '/' :: _ => true
  | _ => false

/-- filepath.Clean for a Unix separator: lexically resolve ".", "..",
and duplicate separators; empty input cleans to ".". -/
def cleanPath (p : String) : String :=
  if p = "" then "."
  else
    let rooted := isRootedPath p
    let body := joinComps (cleanStack rooted [] (splitComps [] p.data)).reverse
    if rooted then "/" ++ body
    else if body = "" then "." else body

/-- filepath.Abs: a rooted path is cleaned as is; a relative path is
joined to the working directory and cleaned (filepath.Join). -/
def absPath (cwd p : String) : String :=
  if isRootedPath p then cleanPath p else cleanPath (cwd ++ "/" ++ p)

/-- strings.HasPrefix. -/
def strLeads (p s : String) : Bool :=
  leadsWith p.data s.data

/-- checkPath: resolve candidate and base to absolute form; fail with the
unsafe-path error unless the candidate has the base plus a trailing
separator as a prefix or equals the base exactly. -/
def checkPath (cwd basePath filePath : String) : Except String String :=
  let absFile := absPath cwd filePath
  let absBase := absPath cwd basePath
  if ¬ (strLeads (absBase ++ "/") absFile = true) ∧ absFile ≠ absBase then
    .error ("unsafe file path: " ++ filePath)
  else .ok absFile

/-- Spec 4.1's acceptance condition, stated in the spec's words: the
canonicalized candidate is the base directory itself, or strictly nested
under it via a separator-bounded prefix match. -/
def specPathAllowed (cwd basePath filePath : String) : Prop :=
  absPath cwd filePath = absPath cwd basePath ∨
    strLeads (absPath cwd basePath ++ "/") (absPath cwd filePath) = true

/-! ### The Thread data model and its stored JSON encoding

Save writes json.MarshalIndent(th, "", "  ") and Load reads it back with
json.Unmarshal.  The renderer below reproduces Go's encoder for the
Thread struct (fields in declaration order, two-space indentation, HTML
escaping as json.Marshal performs by default); the parser models
json.Unmarshal specialized to that same field order, with arbitrary
interleaving whitespace and mandatory full consumption. -/

structure Message where
  role : String
  content : String
  deriving DecidableEq

structure Thread where
  id : String
  messages : List Message
  deriving DecidableEq

def lowHexDigit (n : Nat) : Char :=
  if n < 10 then Char.ofNat (48 + n) else Char.ofNat (87 + n)

/-- Go encoding/json string escaping with the default HTML escaping:
quote and backslash, \n \r \t, other control characters as \u00xx, the
HTML-sensitive characters as < > &, and the line
separators U+2028/U+2029. -/
def escChar (c : Char) : List Char :=
  if c = '"' then ['\\', '"']
  else if c = '\\' then ['\\', '\\']
  else if c = '\n' then ['\\', 'n']
  else if c = '\r' then ['\\', 'r']
  else if c = '\t' then ['\\', 't']
  else if c.toNat < 32 then
    ['\\', 'u', '0', '0', lowHexDigit (c.toNat / 16), lowHexDigit (c.toNat % 16)]
  else if c = '<' then ['\\', 'u', '0', '0', '3', 'c']
  else if c = '>' then ['\\', 'u', '0', '0', '3', 'e']
  else if c = '&' then ['\\', 'u', '0', '0', '2', '6']
  else if c.toNat = 8232 then ['\\', 'u', '2', '0', '2', '8']
  else if c.toNat = 8233 then ['\\', 'u', '2', '0', '2', '9']
  else [c]

def escList : List Char → List Char
  | [] => []
  | c :: rest => escChar c ++ escList rest

/-- A JSON string literal as Go's encoder writes it. -/
def renderJString (s : String) : List Char :=
  '"' :: (escList s.data ++ ['"'])

/-- One element of the "messages" array as MarshalIndent lays it out
(element at indent 4, fields at indent 6). -/
def renderMessage (m : Message) : List Char :=
  "\x7b\n      \"role\": ".data ++ renderJString m.role ++
    ",\n      \"content\": ".data ++ renderJString m.content ++ "\n    \x7d".data

def renderMessagesItems : List Message → List Char
  | [] => []
  | [m] => renderMessage m
  | m :: rest => renderMessage m ++ ",\n    ".data ++ renderMessagesItems rest

def renderMessages (ms : List Message) : List Char :=
  match ms with
  | [] => "[]".data
  | _ :: _ => "[\n    ".data ++ renderMessagesItems ms ++ "\n  ]".data

/-- json.MarshalIndent(th, "", "  ") for the Thread struct. -/
def renderThread (th : Thread) : List Char :=
  "\x7b\n  \"id\": ".data ++ renderJString th.id ++
    ",\n  \"messages\": ".data ++ renderMessages th.messages ++ "\n\x7d".data

def expectLit : List Char → List Char → Option (List Char)
  | [], cs => some cs
  | e :: es, c :: cs => if e == c then expectLit es cs else none
  | _ :: _, [] => none

/-- Parse one message object of the stored encoding. -/
def parseMessageObj (cs : List Char) : Option (Message × List Char) :=
  match skipWs cs with
  | '\x7b' :: r1 =>
    match expectLit "\"role\"".data (skipWs r1) with
    | none => none
    | some r2 =>
      match skipWs r2 with
      | ':' :: r3 =>
        match skipWs r3 with
        | '"' :: r4 =>
          match parseJStringBody [] r4 with
          | none => none
          | some (rv, r5) =>
            match skipWs r5 with
            | ',' :: r6 =>
              match expectLit "\"content\"".data (skipWs r6) with
              | none => none
              | some r7 =>
                match skipWs r7 with
                | ':' :: r8 =>
                  match skipWs r8 with
                  | '"' :: r9 =>
                    match parseJStringBody [] r9 with
                    | none => none
                    | some (cv, r10) =>
                      match skipWs r10 with
                      | '\x7d' :: r11 => some ({ role := rv, content := cv }, r11)
                      | _ => none
                  | _ => none
                | _ => none
            | _ => none
        | _ => none
      | _ => none
  | _ => none

mutual

/-- Parse the non-empty tail of the messages array (fuelled). -/
def parseMessagesItems : Nat → List Char → Option (List Message × List Char)
  | 0, _ => none
  | fuel + 1, cs =>
    match parseMessageObj cs with
    | none => none
    | some (m, r1) => parseMessagesItemsTail fuel m r1

/-- After one parsed message: a comma continues the array, a closing
bracket ends it. -/
def parseMessagesItemsTail : Nat → Message → List Char → Option (List Message × List Char)
  | 0, _, _ => none
  | fuel + 1, m, r1 =>
    match skipWs r1 with
    | ',' :: r2 =>
      match parseMessagesItems fuel r2 with
      | none => none
      | some (ms, r3) => some (m :: ms, r3)
    | ']' :: r2 => some ([m], r2)
    | _ => none

end

def parseMessagesArr (fuel : Nat) (cs : List Char) : Option (List Message × List Char) :=
  match skipWs cs with
  | '[' :: r1 =>
    match skipWs r1 with
    | ']' :: r2 => some ([], r2)
    | _ => parseMessagesItems fuel r1
  | _ => none

/-- Model of json.Unmarshal(data, &th) for the Thread shape as written
by Save: object with "id" then "messages", whole-input consumption. -/
def parseThread (s : String) : Option Thread :=
  match skipWs s.data with
  | '\x7b' :: r1 =>
    match expectLit "\"id\"".data (skipWs r1) with
    | none => none
    | some r2 =>
      match skipWs r2 with
      | ':' :: r3 =>
        match skipWs r3 with
        | '"' :: r4 =>
          match parseJStringBody [] r4 with
          | none => none
          | some (idv, r5) =>
            match skipWs r5 with
            | ',' :: r6 =>
              match expectLit "\"messages\"".data (skipWs r6) with
              | none => none
              | some r7 =>
                match skipWs r7 with
                | ':' :: r8 =>
                  match parseMessagesArr (s.data.length + 1) r8 with
                  | none => none
                  | some (ms, r9) =>
                    match skipWs r9 with
                    | '\x7d' :: r10 =>
                      if skipWs r10 = [] then some { id := idv, messages := ms }
                      else none
                    | _ => none
                | _ => none
            | _ => none
        | _ => none
      | _ => none
  | _ => none

def isWsOnly (l : List Char) : Bool := l.all isWsChar

/-! ### The filesystem thread store (FSStore.Load / FSStore.Save)

The store directory is modelled as a snapshot list of (file name, file
content) entries, as os.ReadDir exposes it.  Load's safeReadFile check
always passes for names returned by ReadDir (directory entries contain no
separator), so it is not repeated there; Save's composite of the
checkPath guard and the flat write is modelled by rejecting exactly the
names containing a separator: checkPath rejects names resolving outside
the base directory, and a nested name fails the write because the store
never creates subdirectories. -/

inductive StoreErr where
  | notFound
  | ambiguous
  | decodeFail
  | writeFail
  deriving DecidableEq

/-- The scan loop of FSStore.Load: remember the first matching name and
fail as soon as a second matches; "" plays Go's no-match-yet sentinel. -/
def findMatch : List (String × String) → String → String → Except Unit String
  | [], _, m => .ok m
  | e :: rest, pfx, m =>
    if strLeads pfx e.1 then
      if m ≠ "" then .error () else findMatch rest pfx e.1
    else findMatch rest pfx m

def lookupEntry : List (String × String) → String → Option String
  | [], _ => none
  | e :: rest, n => if e.1 = n then some e.2 else lookupEntry rest n

/-- FSStore.Load over a directory snapshot: scan the stored file names
for the prefix, then read and decode the unique match. -/
def fsLoad (files : List (String × String)) (idPrefix : String) :
    Except StoreErr Thread :=
  match findMatch files idPrefix "" with
  | .error _ => .error .ambiguous
  | .ok m =>
    if m = "" then .error .notFound
    else
      match lookupEntry files m with
      | none => .error .notFound
      | some data =>
        match parseThread data with
        | none => .error .decodeFail
        | some th => .ok th

def insertEntry : List (String × String) → String → String → List (String × String)
  | [], n, v => [(n, v)]
  | e :: rest, n, v => if e.1 = n then (n, v) :: rest else e :: insertEntry rest n v

/-- FSStore.Save: serialize with MarshalIndent and write under
id + ".json", overwriting a prior file of that name. -/
def fsSave (files : List (String × String)) (th : Thread) :
    Except StoreErr (List (String × String)) :=
  if (th.id ++ ".json").data.contains '/' then .error .writeFail
  else .ok (insertEntry files (th.id ++ ".json") (String.mk (renderThread th)))

/-! ### C7: persistence of the completed turn (handleCompletionResponse) -/

/-- handleCompletionResponse: with non-empty accumulated text, append one
assistant message and persist through the store (a save failure is
surfaced); with empty text do nothing.  Citations are only printed and
never influence persistence; printing is outside this model. -/
def handleCompletionResponse (files : List (String × String)) (th : Thread)
    (finalContent : String) (citations : List String) :
    Except StoreErr (List (String × String) × Thread) :=
  if finalContent ≠ "" then
    match fsSave files { th with messages := th.messages
        ++ [{ role := "assistant", content := finalContent }] } with
    | .error e => .error e
    | .ok files1 =>
      .ok (files1, { th with messages := th.messages
          ++ [{ role := "assistant", content := finalContent }] })
  else .ok (files, th)

/-! ### C9: the Paced Emitter (startSmoothPrinter and its channel)

The producer (the readSSE loop pushing runes into charCh), the bounded
channel of capacity smoothPrintBufferSize, and the consumer goroutine
(startSmoothPrinter) are modelled as an interleaving step relation.  On
the graceful path readSSE closes the channel after its last send and only
cancels the context after the consumer has joined, so the consumer's exit
condition is a closed and drained channel; the ticker only spaces the
receive steps in time and is not modelled.  The cancellation path (which
may abandon queued output) is a distinct exit not taken on graceful
close. -/

/-- smoothPrintBufferSize, the channel bound. -/
def pacedCap : Nat := 1024

/-- One interleaved configuration: characters the producer has not yet
submitted, the channel's queue, the characters already written to the
display, and whether the channel has been closed. -/
structure EmitterState where
  pending : List Char
  queue : List Char
  emitted : List Char
  closed : Bool
  deriving DecidableEq

/-- Interleaving steps: the producer sends its next character when the
bounded channel has room and the channel is open, closes the channel
after its last character, and the consumer receives one character at a
time from the front of the queue and writes it to the display. -/
inductive EmitterStep : EmitterState → EmitterState → Prop
  | send (c : Char) (pending queue emitted : List Char) :
      queue.length < pacedCap →
      EmitterStep ⟨c :: pending, queue, emitted, false⟩
        ⟨pending, queue ++ [c], emitted, false⟩
  | close (queue emitted : List Char) :
      EmitterStep ⟨[], queue, emitted, false⟩ ⟨[], queue, emitted, true⟩
  | recv (c : Char) (pending queue emitted : List Char) (closed : Bool) :
      EmitterStep ⟨pending, c :: queue, emitted, closed⟩
        ⟨pending, queue, emitted ++ [c], closed⟩

def emitterReaches : EmitterState → EmitterState → Prop :=
  Relation.ReflTransGen EmitterStep

def emitterInit (submitted : List Char) : EmitterState :=
  ⟨submitted, [], [], false⟩

/-- The consumer's graceful-exit condition: closed and fully drained. -/
def emitterDone (s : EmitterState) : Prop := s.closed = true ∧ s.queue = []

example : decodeSSE "\x7b\"choices\":[]\x7d".data = some { choices := [], citations := [] } := by
  decide

example : decodeSSE "\x7b\"choices\":[\x7b\"delta\":\x7b\"content\":\"Hi\"\x7d\x7d]\x7d".data
    = some { choices := [{ delta := { content := "Hi" }, finishReason := "" }], citations := [] } := by
  decide

example : decodeSSE "data: \x7b\"choices\":[]\x7d".data = none := by decide

example : decodeSSE "\x7b\"choices\":[\x7b\"del".data = none := by decide

example :
    readSSE
      [ .frame "data: \x7b\"choices\":[\x7b\"delta\":\x7b\"content\":\"He\"\x7d\x7d]\x7d".data
      , .frame "data: \x7b\"choices\":[\x7b\"delta\":\x7b\"content\":\"llo\"\x7d\x7d]\x7d".data
      , .frame "data: [DONE]".data ]
    = .done (.ok ("Hello", [])) := by
  rfl

/-- C8 (confirmed): a decode failure of the rolling reassembly buffer is
never an error — the state is unchanged except that the buffer now holds
the previous buffer followed by this frame's payload, ready for the next
call to append to; a decode success resets the buffer to empty and emits
the Structured Chunk (recorded in the emission trace, with its content
delta appended to the final text and forwarded to the pacing channel). -/
theorem c8_decode_failure_retries (st : ProcState) (raw : List Char) (h : raw ≠ []) :
    (decodeSSE (st.buf ++ payloadOf raw) = none →
      processSSEChunk st raw = { st with buf := st.buf ++ payloadOf raw }) ∧
    (∀ c, decodeSSE (st.buf ++ payloadOf raw) = some c →
      processSSEChunk st raw =
        { buf := []
          finalText := st.finalText ++ contentOf c
          citations := if c.citations.length > 0 then c.citations else st.citations
          printed := st.printed ++ (contentOf c).data
          emitted := st.emitted ++ [c] }) := by
  cases raw with
  | nil => exact absurd rfl h
  | cons a l =>
    constructor
    · intro hd
      simp [processSSEChunk, hd]
    · intro c hd
      simp [processSSEChunk, hd, emitChunk]

theorem c8_decode_failure_retries_witness :
    processSSEChunk initState "data: \x7b\"cho".data =
      { initState with buf := initState.buf ++ payloadOf "data: \x7b\"cho".data } :=
  (c8_decode_failure_retries initState "data: \x7b\"cho".data (by decide)).1 (by decide)

/-- C10 (confirmed): a frame whose bytes contain the [DONE] substring
anywhere — content included — ends the call cleanly: later events are
never examined, the frame itself is never parsed or appended, and the
text and citations accumulated so far are the successful result. -/
theorem c10_done_sentinel_ends_stream (st : ProcState) (f : List Char)
    (rest : List SSEEvent) (h : hasSub doneMarker f = true) :
    readSSEAux st (.frame f :: rest) = .done (.ok (st.finalText, st.citations)) := by
  simp [readSSEAux, checkEventEnd, h]

theorem c10_done_sentinel_ends_stream_witness :
    readSSEAux
      { initState with finalText := "prior", citations := ["a.com"] }
      [ .frame "data: \x7b\"choices\":[\x7b\"delta\":\x7b\"content\":\"x [DONE] y\"\x7d\x7d]\x7d".data
      , .frame "data: \x7b\"choices\":[\x7b\"delta\":\x7b\"content\":\"never\"\x7d\x7d]\x7d".data ]
    = .done (.ok ("prior", ["a.com"])) :=
  c10_done_sentinel_ends_stream _ _ _ (by decide)

/-- C2 (counterexample): the finish indicator does not cause DONE.  The
first frame decodes to a Structured Chunk with the finish indicator set
("stop"), yet the loop is not in a terminal state after it, and a later
frame's content is still consumed — the call only ends at end of
transport, returning text accumulated after the finish chunk. -/
theorem c2_finish_flag_counterexample :
    decodeSSE (payloadOf finishFrame) =
      some { choices := [{ delta := { content := "" }, finishReason := "stop" }]
           , citations := [] }
    ∧ isDone (readSSE [.frame finishFrame]) = false
    ∧ readSSE
        [ .frame finishFrame
        , .frame "data: \x7b\"choices\":[\x7b\"delta\":\x7b\"content\":\"after\"\x7d\x7d]\x7d".data
        , .eofEnd ]
      = .done (.ok ("after", [])) := by
  refine ⟨by decide, by decide, by rfl⟩

/-- C2 (amended): a decoded chunk's finish indicator has no effect on
termination — the call remains in its reading state exactly when every
transport event so far is an ordinary frame without the [DONE] sentinel,
so DONE is reached precisely on end-of-transport, on a read error, or on
a sentinel-bearing frame. -/
theorem c2_done_exactly_on_transport_end (st : ProcState) (evs : List SSEEvent) :
    isDone (readSSEAux st evs) = false ↔ evs.all nonTerminalEvent = true := by
  induction evs generalizing st with
  | nil => simp [readSSEAux, isDone]
  | cons ev rest ih =>
    cases ev with
    | frame raw =>
      by_cases h : hasSub doneMarker raw = true
      · simp [readSSEAux, checkEventEnd, h, isDone, nonTerminalEvent]
      · simp only [Bool.not_eq_true] at h
        simp [readSSEAux, checkEventEnd, h, nonTerminalEvent, ih]
    | eofEnd => simp [readSSEAux, checkEventEnd, isDone, nonTerminalEvent]
    | readErr m => simp [readSSEAux, checkEventEnd, isDone, nonTerminalEvent]

theorem citStep_fold (cs : List SSEChunk) (d : List String) :
    cs.foldl citStep d = (lastNonEmptyCitList cs).getD d := by
  induction cs generalizing d with
  | nil => rfl
  | cons c rest ih =>
    rw [List.foldl_cons, ih]
    cases h : lastNonEmptyCitList rest with
    | some r => simp [lastNonEmptyCitList, h]
    | none =>
      by_cases hc : c.citations = []
      · simp [lastNonEmptyCitList, h, hc, citStep]
      · simp [lastNonEmptyCitList, h, hc, citStep, List.length_pos.mpr hc]

/-- Decomposition of a run of the reassembler: the chunks it emits extend
the emission trace, and the final citation list is the fold of the
per-chunk update over exactly those chunks. -/
theorem processFrames_trace (frames : List (List Char)) (st : ProcState) :
    ∃ new, (processFrames st frames).emitted = st.emitted ++ new ∧
      (processFrames st frames).citations = new.foldl citStep st.citations := by
  induction frames generalizing st with
  | nil => exact ⟨[], by simp [processFrames], by simp [processFrames]⟩
  | cons raw rest ih =>
    by_cases he : raw.isEmpty
    · obtain ⟨new, h1, h2⟩ := ih st
      exact ⟨new, by simpa [processFrames, processSSEChunk, he] using h1,
        by simpa [processFrames, processSSEChunk, he] using h2⟩
    · cases hd : decodeSSE (st.buf ++ payloadOf raw) with
      | none =>
        obtain ⟨new, h1, h2⟩ := ih { st with buf := st.buf ++ payloadOf raw }
        exact ⟨new, by simpa [processFrames, processSSEChunk, he, hd] using h1,
          by simpa [processFrames, processSSEChunk, he, hd] using h2⟩
      | some c =>
        obtain ⟨new, h1, h2⟩ := ih (emitChunk st c)
        refine ⟨c :: new, ?_, ?_⟩
        · have : (emitChunk st c).emitted = st.emitted ++ [c] := rfl
          simp only [processFrames, processSSEChunk, he, hd, Bool.false_eq_true,
            if_false] at h1 ⊢
          rw [h1, this, List.append_assoc]
          rfl
        · have : (emitChunk st c).citations = citStep st.citations c := by
            simp [emitChunk, citStep]
          simp only [processFrames, processSSEChunk, he, hd, Bool.false_eq_true,
            if_false] at h2 ⊢
          rw [h2, this, List.foldl_cons]

/-- C6 (confirmed): within one streaming call the final citation list is
the citations of the last emitted Structured Chunk whose citation list is
non-empty (empty lists leave the working list unchanged, a later
non-empty list wholly replaces an earlier one, lists are never merged),
defaulting to the empty list when no chunk carried citations; in
particular the frames carrying ["a.com","b.com"] and then ["c.com"]
yield exactly ["c.com"]. -/
theorem c6_citations_last_nonempty :
    (∀ frames, (processFrames initState frames).citations =
      (lastNonEmptyCitList (processFrames initState frames).emitted).getD []) ∧
    (processFrames initState
      [ "data: \x7b\"citations\":[\"a.com\",\"b.com\"],\"choices\":[]\x7d".data
      , "data: \x7b\"citations\":[\"c.com\"],\"choices\":[]\x7d".data ]).citations
      = ["c.com"] := by
  constructor
  · intro frames
    obtain ⟨new, h1, h2⟩ := processFrames_trace frames initState
    have hnew : (processFrames initState frames).emitted = new := by
      simpa [initState] using h1
    rw [hnew, h2, citStep_fold]
    rfl
  · decide

/-! ### C1: reassembly under fragmentation -/

theorem dataMarker_eq : dataMarker = ['d', 'a', 't', 'a', ':', ' '] := rfl

theorem leadsWith_append (p rest : List Char) : leadsWith p (p ++ rest) = true := by
  induction p with
  | nil => rfl
  | cons a l ih => simp [leadsWith, ih]

theorem payloadOf_marker_append (q : List Char) : payloadOf (dataMarker ++ q) = q := by
  have hfind : findSubIdx dataMarker (dataMarker ++ q) = some 0 := by
    rw [dataMarker_eq, List.cons_append, findSubIdx, ← List.cons_append, ← dataMarker_eq,
      if_pos (leadsWith_append dataMarker q)]
  rw [payloadOf, hfind]
  show (dataMarker ++ q).drop dataMarker.length = q
  exact List.drop_left dataMarker q

theorem findSubIdx_of_hasSub_false (pat raw : List Char) (h : hasSub pat raw = false) :
    findSubIdx pat raw = none := by
  unfold hasSub at h
  cases hfs : findSubIdx pat raw with
  | none => rfl
  | some i => rw [hfs] at h; exact absurd h (by simp)

theorem payloadOf_no_marker (raw : List Char) (h : hasSub dataMarker raw = false) :
    payloadOf raw = raw := by
  rw [payloadOf, findSubIdx_of_hasSub_false dataMarker raw h]

theorem payloadOf_fragCarries {f p : List Char} (h : fragCarries f p) :
    payloadOf f = p := by
  rcases h with h | ⟨h1, h2⟩
  · subst h; exact payloadOf_marker_append p
  · subst h1; exact payloadOf_no_marker f h2

theorem decodeSSE_nil : decodeSSE [] = none := rfl

theorem setBuf_eq_self (st : ProcState) (b : List Char) (h : st.buf = b) :
    ({ st with buf := b } : ProcState) = st := by
  cases st
  cases h
  rfl

theorem processSSEChunk_keep (st : ProcState) (raw : List Char)
    (hdec : decodeSSE (st.buf ++ payloadOf raw) = none) :
    processSSEChunk st raw = { st with buf := st.buf ++ payloadOf raw } := by
  cases raw with
  | nil =>
    rw [show payloadOf [] = [] from rfl, List.append_nil, setBuf_eq_self st st.buf rfl]
    rfl
  | cons a l => simp [processSSEChunk, hdec]

theorem decode_proper_prefix {payload : List Char}
    (hpre : ∀ n, n < payload.length → decodeSSE (payload.take n) = none)
    (b rest : List Char) (hb : b ++ rest = payload) (hrest : rest ≠ []) :
    decodeSSE b = none := by
  subst hb
  have hlen : b.length < (b ++ rest).length := by
    rw [List.length_append]
    have := List.length_pos.mpr hrest
    omega
  have htake : (b ++ rest).take b.length = b := List.take_left b rest
  rw [← htake]
  exact hpre _ hlen

/-- Frames whose payload pieces are all empty leave a state with an empty
buffer untouched. -/
theorem processFrames_empty_frags :
    ∀ {frags pieces : List (List Char)},
      List.Forall₂ fragCarries frags pieces → pieces.flatten = [] →
      ∀ st : ProcState, st.buf = [] → processFrames st frags = st := by
  intro frags pieces hrel
  induction hrel with
  | nil => intro _ st _; rfl
  | @cons f p frags' pieces' hfp hrest ih =>
    intro hjoin st hbuf
    rw [List.flatten_cons] at hjoin
    obtain ⟨hp, hjoin'⟩ := List.append_eq_nil.mp hjoin
    subst hp
    have hpayf : payloadOf f = [] := payloadOf_fragCarries hfp
    have hstep : processSSEChunk st f = st := by
      have hdecf : decodeSSE (st.buf ++ payloadOf f) = none := by
        rw [hpayf, List.append_nil, hbuf]
        exact decodeSSE_nil
      rw [processSSEChunk_keep st f hdecf, hpayf, List.append_nil]
    rw [processFrames, hstep]
    exact ih hjoin' st hbuf

/-- Core accumulation lemma: feeding fragments whose pieces concatenate
to a complete record — every proper prefix of which fails to decode —
grows the buffer monotonically and ends in exactly the one emission the
whole record yields. -/
theorem processFrames_accum {payload : List Char} {c : SSEChunk}
    (hdec : decodeSSE payload = some c)
    (hpre : ∀ n, n < payload.length → decodeSSE (payload.take n) = none) :
    ∀ {frags pieces : List (List Char)},
      List.Forall₂ fragCarries frags pieces →
      ∀ st : ProcState, st.buf ++ pieces.flatten = payload → pieces.flatten ≠ [] →
      processFrames st frags = emitChunk st c := by
  intro frags pieces hrel
  induction hrel with
  | nil => intro st _ hne; exact absurd rfl hne
  | @cons f p frags' pieces' hfp hrest ih =>
    intro st hpref hne
    rw [List.flatten_cons] at hpref hne
    have hpay : payloadOf f = p := payloadOf_fragCarries hfp
    by_cases hp : p = []
    · subst hp
      have hjne : pieces'.flatten ≠ [] := by simpa using hne
      have hsub : decodeSSE st.buf = none :=
        decode_proper_prefix hpre st.buf pieces'.flatten (by simpa using hpref) hjne
      have hstep : processSSEChunk st f = st := by
        have hdecf : decodeSSE (st.buf ++ payloadOf f) = none := by
          rw [hpay, List.append_nil]
          exact hsub
        rw [processSSEChunk_keep st f hdecf, hpay, List.append_nil]
      rw [processFrames, hstep]
      exact ih st (by simpa using hpref) hjne
    · have hfne : f ≠ [] := by
        rcases hfp with h | ⟨h1, _⟩
        · subst h; simp [dataMarker_eq]
        · subst h1; exact hp
      by_cases hrestj : pieces'.flatten = []
      · have hbp : st.buf ++ p = payload := by
          rw [← hpref, hrestj, List.append_nil]
        have hstep : processSSEChunk st f = emitChunk st c := by
          cases f with
          | nil => exact absurd rfl hfne
          | cons a l => simp [processSSEChunk, hpay, hbp, hdec]
        rw [processFrames, hstep]
        exact processFrames_empty_frags hrest hrestj (emitChunk st c) rfl
      · have hsub : decodeSSE (st.buf ++ p) = none :=
          decode_proper_prefix hpre (st.buf ++ p) pieces'.flatten
            (by rw [List.append_assoc]; exact hpref) hrestj
        have hstep : processSSEChunk st f = { st with buf := st.buf ++ p } := by
          cases f with
          | nil => exact absurd rfl hfne
          | cons a l => simp [processSSEChunk, hpay, hsub]
        rw [processFrames, hstep]
        have hfin := ih { st with buf := st.buf ++ p }
          (by rw [← hpref]; simp [List.append_assoc]) hrestj
        rw [hfin]
        rfl

/-- C1 (amended): when the record is fragmented so that each piece either
carries the data-prefix marker at its start or contains no marker at all,
the pieces concatenate to the complete record, and no proper prefix of
the record already decodes, the reassembler ends in exactly the state the
single-frame delivery produces — the same Structured Chunk (same content
delta, citations and finish indicator) is emitted either way. -/
theorem c1_fragmented_equals_single (st : ProcState) (payload : List Char) (c : SSEChunk)
    (frags pieces : List (List Char))
    (hbuf : st.buf = [])
    (hrel : List.Forall₂ fragCarries frags pieces)
    (hjoin : pieces.flatten = payload)
    (hdec : decodeSSE payload = some c)
    (hpre : ∀ n, n < payload.length → decodeSSE (payload.take n) = none) :
    processFrames st frags = processFrames st [dataMarker ++ payload] := by
  have hpne : payload ≠ [] := by
    intro h
    rw [h, decodeSSE_nil] at hdec
    exact Option.noConfusion hdec
  have h1 : processFrames st frags = emitChunk st c :=
    processFrames_accum hdec hpre hrel st (by rw [hbuf, hjoin]; rfl) (hjoin ▸ hpne)
  have h2 : processFrames st [dataMarker ++ payload] = emitChunk st c :=
    processFrames_accum hdec hpre (.cons (Or.inl rfl) .nil) st
      (by rw [hbuf]; simp) (by simpa using hpne)
  rw [h1, h2]

/-- C1 (counterexample to the original claim): one complete record split
at an arbitrary point — here inside the "data: " marker itself — does not
reproduce the single-frame emission: delivered whole, the record emits
its Structured Chunk; delivered as the two pieces "dat" and
"a: ...", nothing is ever emitted. -/
theorem c1_any_split_counterexample :
    "dat".data ++ "a: \x7b\"choices\":[]\x7d".data = "data: \x7b\"choices\":[]\x7d".data
    ∧ (processFrames initState ["data: \x7b\"choices\":[]\x7d".data]).emitted
        = [{ choices := [], citations := [] }]
    ∧ (processFrames initState ["dat".data, "a: \x7b\"choices\":[]\x7d".data]).emitted
        = [] := by
  refine ⟨by decide, by decide, by decide⟩

theorem c1_fragmented_equals_single_witness :
    processFrames initState
      [ "data: \x7b\"choi".data
      , "ces\":[\x7b\"delta\":\x7b\"co".data
      , "ntent\":\"Hi\"\x7d\x7d]\x7d".data ]
    = processFrames initState
        [dataMarker ++ "\x7b\"choices\":[\x7b\"delta\":\x7b\"content\":\"Hi\"\x7d\x7d]\x7d".data] :=
  c1_fragmented_equals_single initState
    "\x7b\"choices\":[\x7b\"delta\":\x7b\"content\":\"Hi\"\x7d\x7d]\x7d".data
    { choices := [{ delta := { content := "Hi" }, finishReason := "" }], citations := [] }
    _ ["\x7b\"choi".data, "ces\":[\x7b\"delta\":\x7b\"co".data, "ntent\":\"Hi\"\x7d\x7d]\x7d".data]
    rfl
    (.cons (Or.inl (by decide)) (.cons (Or.inr ⟨rfl, by decide⟩)
      (.cons (Or.inr ⟨rfl, by decide⟩) .nil)))
    (by decide) (by decide) (by decide)

example : cleanPath "/a/b/../c" = "/a/c" := by decide

example : cleanPath "a//b/./c/" = "a/b/c" := by decide

example : cleanPath "../x" = "../x" := by decide

example : cleanPath "/.." = "/" := by decide

/-- C5 (confirmed): the Path-Safe Store check succeeds exactly when the
canonicalized candidate equals the canonicalized base or extends it past
a separator (separator-bounded prefix, not naive string prefix), and
fails with the path-violation error otherwise; in particular a traversal
like "../outside" against base /a/b and the sibling /a/bx of base /a/b
are both rejected. -/
theorem c5_checkPath_separator_bounded :
    (∀ cwd basePath filePath,
      (checkPath cwd basePath filePath).isOk = true ↔
        specPathAllowed cwd basePath filePath) ∧
    (checkPath "/a/b" "/a/b" "../outside").isOk = false ∧
    (checkPath "/x" "/a/b" "/a/bx").isOk = false := by
  refine ⟨?_, by decide, by decide⟩
  intro cwd basePath filePath
  unfold checkPath specPathAllowed
  by_cases h1 : strLeads (absPath cwd basePath ++ "/") (absPath cwd filePath) = true
  · simp [h1, Except.isOk, Except.toBool]
  · by_cases h2 : absPath cwd filePath = absPath cwd basePath
    · simp [h1, h2, Except.isOk, Except.toBool]
    · simp [h1, h2, Except.isOk, Except.toBool]

example :
    parseThread (String.mk (renderThread
      { id := "t1"
      , messages := [ { role := "user", content := "hi \"there\"" }
                    , { role := "assistant", content := "a\nb<c>" } ] }))
    = some { id := "t1"
           , messages := [ { role := "user", content := "hi \"there\"" }
                         , { role := "assistant", content := "a\nb<c>" } ] } := by
  decide

example : parseThread "garbage" = none := by decide

example : parseThread (String.mk (renderThread { id := "e", messages := [] }))
    = some { id := "e", messages := [] } := by decide

/-! ### Round trip of the stored encoding -/

theorem hexDigitVal_lowHexDigit : ∀ d, d < 16 → hexDigitVal (lowHexDigit d) = some d := by
  decide

set_option maxHeartbeats 2000000 in
theorem parseJStringBody_plain (acc rest : List Char) (c : Char)
    (h1 : c ≠ '"') (h2 : c ≠ '\\') (h3 : ¬ c.toNat < 32) :
    parseJStringBody acc (c :: rest) = parseJStringBody (c :: acc) rest := by
  simp [parseJStringBody, h1, h2, h3]

theorem parseJStringBody_esc (c : Char) (acc rest : List Char) :
    parseJStringBody acc (escChar c ++ rest) = parseJStringBody (c :: acc) rest := by
  by_cases h1 : c = '"'
  · subst h1; rfl
  by_cases h2 : c = '\\'
  · subst h2; rfl
  by_cases h3 : c = '\n'
  · subst h3; rfl
  by_cases h4 : c = '\r'
  · subst h4; rfl
  by_cases h5 : c = '\t'
  · subst h5; rfl
  by_cases h6 : c.toNat < 32
  · have hd1 : c.toNat / 16 < 16 := by omega
    have hd2 : c.toNat % 16 < 16 := by omega
    have hx : hexChar4 '0' '0' (lowHexDigit (c.toNat / 16)) (lowHexDigit (c.toNat % 16))
        = some c := by
      unfold hexChar4
      rw [hexDigitVal_lowHexDigit _ hd1, hexDigitVal_lowHexDigit _ hd2,
        show hexDigitVal '0' = some 0 from rfl]
      show (if Nat.isValidChar (((0 * 16 + 0) * 16 + c.toNat / 16) * 16 + c.toNat % 16)
        then some (Char.ofNat (((0 * 16 + 0) * 16 + c.toNat / 16) * 16 + c.toNat % 16))
        else none) = some c
      rw [show ((0 * 16 + 0) * 16 + c.toNat / 16) * 16 + c.toNat % 16 = c.toNat from by
        omega]
      rw [if_pos (show Nat.isValidChar c.toNat from c.valid), Char.ofNat_toNat]
    rw [escChar, if_neg h1, if_neg h2, if_neg h3, if_neg h4, if_neg h5, if_pos h6]
    simp only [List.cons_append, List.nil_append]
    show (match hexChar4 '0' '0' (lowHexDigit (c.toNat / 16)) (lowHexDigit (c.toNat % 16)) with
      | some ch => parseJStringBody (ch :: acc) rest
      | none => none) = parseJStringBody (c :: acc) rest
    rw [hx]
  by_cases h7 : c = '<'
  · subst h7; rfl
  by_cases h8 : c = '>'
  · subst h8; rfl
  by_cases h9 : c = '&'
  · subst h9; rfl
  by_cases h10 : c.toNat = 8232
  · have hc : c = Char.ofNat 8232 := by rw [← h10, Char.ofNat_toNat]
    subst hc; rfl
  by_cases h11 : c.toNat = 8233
  · have hc : c = Char.ofNat 8233 := by rw [← h11, Char.ofNat_toNat]
    subst hc; rfl
  · rw [escChar, if_neg h1, if_neg h2, if_neg h3, if_neg h4, if_neg h5, if_neg h6,
      if_neg h7, if_neg h8, if_neg h9, if_neg h10, if_neg h11]
    rw [List.cons_append, List.nil_append]
    exact parseJStringBody_plain acc rest c h1 h2 h6

theorem parseJStringBody_escList (l : List Char) :
    ∀ acc rest, parseJStringBody acc (escList l ++ '"' :: rest)
      = some (String.mk (acc.reverse ++ l), rest) := by
  induction l with
  | nil =>
    intro acc rest
    simp [escList, parseJStringBody]
  | cons c l ih =>
    intro acc rest
    rw [escList, List.append_assoc, parseJStringBody_esc, ih (c :: acc) rest]
    simp

theorem parse_renderJString (s : String) (rest : List Char) :
    parseJStringBody [] (escList s.data ++ '"' :: rest) = some (s, rest) := by
  rw [parseJStringBody_escList]
  simp

theorem skipWs_ws_append (l x : List Char) (h : isWsOnly l = true) :
    skipWs (l ++ x) = skipWs x := by
  induction l with
  | nil => rfl
  | cons c cl ih =>
    simp only [isWsOnly, List.all_cons, Bool.and_eq_true] at h
    simpa [skipWs, h.1] using ih (by simp [isWsOnly, h.2])

theorem expectLit_append (l x : List Char) : expectLit l (l ++ x) = some x := by
  induction l with
  | nil => rfl
  | cons c cl ih => simp [expectLit, ih]

theorem parseMessageObj_render (m : Message) (rest : List Char) :
    parseMessageObj (renderMessage m ++ rest) = some (m, rest) := by
  rw [parseMessageObj]
  simp only [renderMessage, renderJString, List.append_assoc, List.cons_append,
    List.nil_append]
  simp [skipWs, isWsChar, expectLit, parse_renderJString]

theorem parseMessageObj_wsLead (lead : List Char) (h : isWsOnly lead = true)
    (cs : List Char) : parseMessageObj (lead ++ cs) = parseMessageObj cs := by
  unfold parseMessageObj
  rw [skipWs_ws_append lead cs h]

theorem parseMessagesItems_wsLead (lead : List Char) (h : isWsOnly lead = true)
    (fuel : Nat) (cs : List Char) :
    parseMessagesItems (fuel + 1) (lead ++ cs) = parseMessagesItems (fuel + 1) cs := by
  simp only [parseMessagesItems]
  rw [parseMessageObj_wsLead lead h cs]

theorem renderMessage_eq (m : Message) :
    renderMessage m = '\x7b' ::
      ("\n      \"role\": ".data ++ (renderJString m.role ++
        (",\n      \"content\": ".data ++ (renderJString m.content ++ "\n    \x7d".data)))) := by
  simp [renderMessage, List.append_assoc]

theorem parseMessagesItems_render :
    ∀ (ms : List Message) (f : Nat) (rest : List Char), ms ≠ [] →
      parseMessagesItems (f + 2 * ms.length)
        (renderMessagesItems ms ++ ('\n' :: ' ' :: ' ' :: ']' :: rest))
        = some (ms, rest) := by
  intro ms
  induction ms with
  | nil => intro f rest h; exact absurd rfl h
  | cons m ms ih =>
    intro f rest _
    cases ms with
    | nil =>
      rw [show f + 2 * ([m] : List Message).length = (f + 1) + 1 from by
        simp only [List.length_cons, List.length_nil]; try omega]
      rw [show renderMessagesItems [m] = renderMessage m from rfl]
      simp only [parseMessagesItems]
      rw [parseMessageObj_render]
      show parseMessagesItemsTail (f + 1) m ('\n' :: ' ' :: ' ' :: ']' :: rest)
        = some ([m], rest)
      simp only [parseMessagesItemsTail]
      rw [show skipWs ('\n' :: ' ' :: ' ' :: ']' :: rest) = ']' :: rest from by
        simp [skipWs, isWsChar]]
      rfl
    | cons m2 ms2 =>
      rw [show renderMessagesItems (m :: m2 :: ms2)
          = renderMessage m ++ ",\n    ".data ++ renderMessagesItems (m2 :: ms2) from rfl]
      rw [show f + 2 * ((m :: m2 :: ms2) : List Message).length
          = ((f + 2 * ((m2 :: ms2) : List Message).length) + 1) + 1 from by
        simp only [List.length_cons]; try omega]
      rw [show (renderMessage m ++ ",\n    ".data ++ renderMessagesItems (m2 :: ms2))
            ++ ('\n' :: ' ' :: ' ' :: ']' :: rest)
          = renderMessage m ++ (',' :: '\n' :: ' ' :: ' ' :: ' ' :: ' ' ::
              (renderMessagesItems (m2 :: ms2) ++ ('\n' :: ' ' :: ' ' :: ']' :: rest)))
        from by simp [List.append_assoc]]
      simp only [parseMessagesItems]
      rw [parseMessageObj_render]
      show parseMessagesItemsTail ((f + 2 * ((m2 :: ms2) : List Message).length) + 1) m
          (',' :: '\n' :: ' ' :: ' ' :: ' ' :: ' ' ::
            (renderMessagesItems (m2 :: ms2) ++ ('\n' :: ' ' :: ' ' :: ']' :: rest)))
        = some (m :: m2 :: ms2, rest)
      simp only [parseMessagesItemsTail]
      rw [show skipWs (',' :: '\n' :: ' ' :: ' ' :: ' ' :: ' ' ::
            (renderMessagesItems (m2 :: ms2) ++ ('\n' :: ' ' :: ' ' :: ']' :: rest)))
          = ',' :: '\n' :: ' ' :: ' ' :: ' ' :: ' ' ::
            (renderMessagesItems (m2 :: ms2) ++ ('\n' :: ' ' :: ' ' :: ']' :: rest))
        from by simp [skipWs, isWsChar]]
      show (match parseMessagesItems (f + 2 * ((m2 :: ms2) : List Message).length)
          ('\n' :: ' ' :: ' ' :: ' ' :: ' ' ::
            (renderMessagesItems (m2 :: ms2) ++ ('\n' :: ' ' :: ' ' :: ']' :: rest))) with
        | none => none
        | some (ms, r3) => some (m :: ms, r3)) = some (m :: m2 :: ms2, rest)
      rw [show ('\n' :: ' ' :: ' ' :: ' ' :: ' ' ::
            (renderMessagesItems (m2 :: ms2) ++ ('\n' :: ' ' :: ' ' :: ']' :: rest)))
          = ('\n' :: ' ' :: ' ' :: ' ' :: ' ' :: []) ++
            (renderMessagesItems (m2 :: ms2) ++ ('\n' :: ' ' :: ' ' :: ']' :: rest))
        from by simp]
      rw [show f + 2 * ((m2 :: ms2) : List Message).length
          = (f + (2 * ms2.length + 1)) + 1 from by simp only [List.length_cons]; try omega]
      rw [parseMessagesItems_wsLead ('\n' :: ' ' :: ' ' :: ' ' :: ' ' :: []) (by decide)]
      rw [show (f + (2 * ms2.length + 1)) + 1
          = f + 2 * ((m2 :: ms2) : List Message).length from by
        simp only [List.length_cons]; try omega]
      rw [ih f rest (by simp)]

theorem parseMessagesArr_render (ms : List Message) (f : Nat) (rest : List Char) :
    parseMessagesArr (f + 2 * ms.length) (' ' :: (renderMessages ms ++ rest))
      = some (ms, rest) := by
  cases ms with
  | nil => simp [renderMessages, parseMessagesArr, skipWs, isWsChar]
  | cons m ms2 =>
    obtain ⟨t, ht⟩ : ∃ t, renderMessagesItems (m :: ms2) = '\x7b' :: t := by
      cases ms2 with
      | nil =>
        exact ⟨"\n      \"role\": ".data ++ (renderJString m.role ++
            (",\n      \"content\": ".data ++ (renderJString m.content ++ "\n    \x7d".data))),
          by rw [show renderMessagesItems [m] = renderMessage m from rfl, renderMessage_eq]⟩
      | cons m3 ms3 =>
        exact ⟨(("\n      \"role\": ".data ++ (renderJString m.role ++
              (",\n      \"content\": ".data ++ (renderJString m.content ++ "\n    \x7d".data))))
            ++ ",\n    ".data) ++ renderMessagesItems (m3 :: ms3),
          by
            rw [show renderMessagesItems (m :: m3 :: ms3)
                = renderMessage m ++ ",\n    ".data ++ renderMessagesItems (m3 :: ms3) from rfl,
              renderMessage_eq]
            simp [List.append_assoc]⟩
    rw [show renderMessages (m :: ms2)
        = "[\n    ".data ++ renderMessagesItems (m :: ms2) ++ "\n  ]".data from rfl]
    rw [show (("[\n    ".data ++ renderMessagesItems (m :: ms2) ++ "\n  ]".data) ++ rest)
        = '[' :: ('\n' :: ' ' :: ' ' :: ' ' :: ' ' ::
            (renderMessagesItems (m :: ms2) ++ ('\n' :: ' ' :: ' ' :: ']' :: rest)))
      from by simp [List.append_assoc]]
    rw [ht]
    show parseMessagesItems (f + 2 * ((m :: ms2) : List Message).length)
        ('\n' :: ' ' :: ' ' :: ' ' :: ' ' :: ('\x7b' :: (t ++ ('\n' :: ' ' :: ' ' :: ']' :: rest))))
      = some (m :: ms2, rest)
    rw [show ('\n' :: ' ' :: ' ' :: ' ' :: ' ' ::
          ('\x7b' :: (t ++ ('\n' :: ' ' :: ' ' :: ']' :: rest))))
        = ('\n' :: ' ' :: ' ' :: ' ' :: ' ' :: []) ++
          ('\x7b' :: (t ++ ('\n' :: ' ' :: ' ' :: ']' :: rest)))
      from by simp]
    rw [show f + 2 * ((m :: ms2) : List Message).length
        = (f + (2 * ms2.length + 1)) + 1 from by simp only [List.length_cons]; try omega]
    rw [parseMessagesItems_wsLead ('\n' :: ' ' :: ' ' :: ' ' :: ' ' :: []) (by decide)]
    rw [show ('\x7b' :: (t ++ ('\n' :: ' ' :: ' ' :: ']' :: rest)))
        = ('\x7b' :: t) ++ ('\n' :: ' ' :: ' ' :: ']' :: rest) from rfl]
    rw [← ht]
    rw [show (f + (2 * ms2.length + 1)) + 1
        = f + 2 * ((m :: ms2) : List Message).length from by
      simp only [List.length_cons]; try omega]
    exact parseMessagesItems_render (m :: ms2) f rest (by simp)

theorem renderMessage_length (m : Message) : 2 ≤ (renderMessage m).length := by
  rw [renderMessage_eq]
  simp only [List.length_cons, List.length_append,
    show ("\n      \"role\": ".data).length = 15 from rfl]
  omega

theorem two_mul_le_items : ∀ ms : List Message,
    2 * ms.length ≤ (renderMessagesItems ms).length := by
  intro ms
  induction ms with
  | nil => simp [renderMessagesItems]
  | cons m ms ih =>
    cases ms with
    | nil =>
      have h := renderMessage_length m
      simp only [renderMessagesItems, List.length_cons, List.length_nil]
      omega
    | cons m2 ms2 =>
      have h := renderMessage_length m
      rw [show renderMessagesItems (m :: m2 :: ms2)
          = renderMessage m ++ ",\n    ".data ++ renderMessagesItems (m2 :: ms2) from rfl]
      simp only [List.length_append, List.length_cons,
        show (",\n    ".data).length = 6 from rfl] at *
      omega

theorem two_mul_le_renderThread (th : Thread) :
    2 * th.messages.length ≤ (renderThread th).length := by
  cases hms : th.messages with
  | nil => simp
  | cons m ms =>
    have h := two_mul_le_items (m :: ms)
    rw [show renderThread th
        = "\x7b\n  \"id\": ".data ++ renderJString th.id ++
            ",\n  \"messages\": ".data ++ renderMessages th.messages ++ "\n\x7d".data
      from rfl]
    rw [hms, show renderMessages (m :: ms)
        = "[\n    ".data ++ renderMessagesItems (m :: ms) ++ "\n  ]".data from rfl]
    simp only [List.length_append, List.length_cons, List.length_nil] at h ⊢
    omega

/-- Round trip of the stored encoding: what Save writes, Load's decoder
reads back as the identical thread. -/
theorem parseThread_render (th : Thread) :
    parseThread (String.mk (renderThread th)) = some th := by
  rw [parseThread]
  generalize hF : (String.mk (renderThread th)).data.length + 1 = F
  simp only [show (String.mk (renderThread th)).data = renderThread th from rfl]
  rw [show renderThread th
      = '\x7b' :: '\n' :: ' ' :: ' ' :: '"' :: 'i' :: 'd' :: '"' :: ':' :: ' ' ::
          ('"' :: (escList th.id.data ++ ('"' ::
            (',' :: '\n' :: ' ' :: ' ' :: '"' :: 'm' :: 'e' :: 's' :: 's' :: 'a' ::
              'g' :: 'e' :: 's' :: '"' :: ':' :: ' ' ::
              (renderMessages th.messages ++ ('\n' :: '\x7d' :: []))))))
    from by simp [renderThread, renderJString, List.append_assoc]]
  simp [skipWs, isWsChar, expectLit, parse_renderJString]
  rw [show F = ((renderThread th).length + 1 - 2 * th.messages.length)
      + 2 * th.messages.length from by
    rw [← hF]
    have := two_mul_le_renderThread th
    show (renderThread th).length + 1 = _
    omega]
  rw [parseMessagesArr_render th.messages
    ((renderThread th).length + 1 - 2 * th.messages.length) ('\n' :: '\x7d' :: [])]
  rfl

theorem findMatch_acc_ne (files : List (String × String)) (pfx m : String)
    (hm : m ≠ "") :
    findMatch files pfx m
      = if files.any (fun e => strLeads pfx e.1) then .error () else .ok m := by
  induction files with
  | nil => simp [findMatch]
  | cons e rest ih =>
    by_cases h : strLeads pfx e.1 = true
    · simp [findMatch, h, hm]
    · simp only [Bool.not_eq_true] at h
      rw [show findMatch (e :: rest) pfx m = findMatch rest pfx m from by
        simp [findMatch, h]]
      rw [ih, List.any_cons, h, Bool.false_or]

theorem findMatch_filter :
    ∀ (files : List (String × String)) (pfx : String),
      (∀ e ∈ files, e.1 ≠ "") →
      findMatch files pfx ""
        = match files.filter (fun e => strLeads pfx e.1) with
          | [] => .ok ""
          | [e] => .ok e.1
          | _ :: _ :: _ => .error () := by
  intro files pfx
  induction files with
  | nil => intro _; simp [findMatch]
  | cons e rest ih =>
    intro hne
    by_cases h : strLeads pfx e.1 = true
    · have he : e.1 ≠ "" := hne e (by simp)
      rw [show findMatch (e :: rest) pfx "" = findMatch rest pfx e.1 from by
        simp [findMatch, h]]
      rw [findMatch_acc_ne rest pfx e.1 he]
      rw [List.filter_cons_of_pos (by simpa using h)]
      cases hfr : rest.filter (fun e => strLeads pfx e.1) with
      | nil =>
        have hr : rest.any (fun e => strLeads pfx e.1) = false := by
          rw [List.any_eq_false]
          intro x hx
          have := List.filter_eq_nil_iff.mp hfr x hx
          simpa using this
        simp [hr]
      | cons x t =>
        have hx : x ∈ rest.filter (fun e => strLeads pfx e.1) := by rw [hfr]; simp
        have hmem := List.mem_filter.mp hx
        have hr : rest.any (fun e => strLeads pfx e.1) = true :=
          List.any_eq_true.mpr ⟨x, hmem.1, hmem.2⟩
        simp [hr]
    · simp only [Bool.not_eq_true] at h
      rw [show findMatch (e :: rest) pfx "" = findMatch rest pfx "" from by
        simp [findMatch, h]]
      rw [List.filter_cons_of_neg (by simp [h])]
      exact ih (fun x hx => hne x (by simp [hx]))

theorem lookup_of_filter_singleton :
    ∀ (files : List (String × String)) (pfx : String) (e : String × String),
      files.filter (fun e0 => strLeads pfx e0.1) = [e] →
      lookupEntry files e.1 = some e.2 := by
  intro files pfx
  induction files with
  | nil => intro e hf; simp at hf
  | cons x rest ih =>
    intro e hf
    by_cases hx : strLeads pfx x.1 = true
    · rw [List.filter_cons_of_pos (by simpa using hx)] at hf
      have hxe : x = e ∧ rest.filter (fun e0 => strLeads pfx e0.1) = [] := by
        simpa using hf
      obtain ⟨hxe, hrest⟩ := hxe
      subst hxe
      simp [lookupEntry]
    · rw [List.filter_cons_of_neg (by simp_all)] at hf
      have hx1 : x.1 ≠ e.1 := by
        intro heq
        have he : e ∈ rest.filter (fun e0 => strLeads pfx e0.1) := by rw [hf]; simp
        have hp := (List.mem_filter.mp he).2
        simp only [← heq] at hp
        exact hx (by simpa using hp)
      simp [lookupEntry, hx1, ih e hf]

theorem fsLoad_no_match (files : List (String × String)) (pfx : String)
    (hne : ∀ e ∈ files, e.1 ≠ "")
    (hf : files.filter (fun e => strLeads pfx e.1) = []) :
    fsLoad files pfx = .error .notFound := by
  rw [fsLoad, findMatch_filter files pfx hne, hf]
  rfl

theorem fsLoad_unique_match (files : List (String × String)) (pfx : String)
    (e : String × String) (hne : ∀ e ∈ files, e.1 ≠ "")
    (hf : files.filter (fun e0 => strLeads pfx e0.1) = [e]) :
    fsLoad files pfx
      = match parseThread e.2 with
        | none => .error .decodeFail
        | some th => .ok th := by
  have he1 : e.1 ≠ "" := by
    have : e ∈ files.filter (fun e0 => strLeads pfx e0.1) := by rw [hf]; simp
    exact hne e (List.mem_filter.mp this).1
  rw [fsLoad, findMatch_filter files pfx hne, hf]
  simp only [if_neg he1]
  rw [lookup_of_filter_singleton files pfx e hf]

theorem fsLoad_multi_match (files : List (String × String)) (pfx : String)
    (hne : ∀ e ∈ files, e.1 ≠ "")
    (hf : 2 ≤ (files.filter (fun e => strLeads pfx e.1)).length) :
    fsLoad files pfx = .error .ambiguous := by
  rw [fsLoad, findMatch_filter files pfx hne]
  cases hfr : files.filter (fun e => strLeads pfx e.1) with
  | nil => rw [hfr] at hf; simp at hf
  | cons x t =>
    cases t with
    | nil => rw [hfr] at hf; simp at hf
    | cons y t2 => rfl

/-- C3 (amended): Load matches the prefix against the stored FILE NAMES
(identifier + ".json" as written by Save), and over those name matches
the trichotomy holds: zero matches return NotFound; a unique match is
read and decoded, a decode failure surfacing as an error; two or more
matches return the ambiguous-prefix error, never silently picking one. -/
theorem c3_load_name_trichotomy (files : List (String × String)) (pfx : String)
    (hne : ∀ e ∈ files, e.1 ≠ "") :
    (files.filter (fun e => strLeads pfx e.1) = [] →
      fsLoad files pfx = .error .notFound) ∧
    (∀ e, files.filter (fun e0 => strLeads pfx e0.1) = [e] →
      fsLoad files pfx
        = match parseThread e.2 with
          | none => .error .decodeFail
          | some th => .ok th) ∧
    (2 ≤ (files.filter (fun e => strLeads pfx e.1)).length →
      fsLoad files pfx = .error .ambiguous) :=
  ⟨fsLoad_no_match files pfx hne,
   fun e => fsLoad_unique_match files pfx e hne,
   fsLoad_multi_match files pfx hne⟩

/-- C3 (counterexample to the original claim): with one stored
conversation whose identifier is "a" (file name "a.json"), the prefix
"a." matches zero stored identifiers — yet Load returns the conversation
instead of NotFound, because it matched the file name. -/
theorem c3_identifier_matching_counterexample :
    strLeads "a." "a" = false
    ∧ fsLoad
        [("a.json", String.mk (renderThread
          { id := "a", messages := [{ role := "user", content := "hi" }] }))] "a."
      = .ok { id := "a", messages := [{ role := "user", content := "hi" }] } := by
  exact ⟨by decide, by rfl⟩

theorem c3_load_name_trichotomy_witness :
    fsLoad
      [ ("t1.json", String.mk (renderThread
          { id := "t1", messages := [{ role := "user", content := "hi" }] }))
      , ("zz.json", "garbage") ] "t1"
      = .ok { id := "t1", messages := [{ role := "user", content := "hi" }] } :=
  ((c3_load_name_trichotomy
      [ ("t1.json", String.mk (renderThread
          { id := "t1", messages := [{ role := "user", content := "hi" }] }))
      , ("zz.json", "garbage") ] "t1" (by decide)).2.1
    ("t1.json", String.mk (renderThread
      { id := "t1", messages := [{ role := "user", content := "hi" }] }))
    (by decide)).trans (by rfl)

theorem mem_insertEntry :
    ∀ (files : List (String × String)) (n v : String) (e : String × String),
      e ∈ insertEntry files n v → e = (n, v) ∨ e ∈ files := by
  intro files n v
  induction files with
  | nil => intro e he; simpa [insertEntry] using he
  | cons x rest ih =>
    intro e he
    by_cases hx : x.1 = n
    · rw [show insertEntry (x :: rest) n v = (n, v) :: rest from by
        simp [insertEntry, hx]] at he
      rcases List.mem_cons.mp he with h | h
      · exact Or.inl h
      · exact Or.inr (by simp [h])
    · rw [show insertEntry (x :: rest) n v = x :: insertEntry rest n v from by
        simp [insertEntry, hx]] at he
      rcases List.mem_cons.mp he with h | h
      · exact Or.inr (by simp [h])
      · rcases ih e h with h2 | h2
        · exact Or.inl h2
        · exact Or.inr (by simp [h2])

theorem filter_insertEntry (p : String × String → Bool) :
    ∀ (files : List (String × String)) (n v : String),
      p (n, v) = true →
      (files.map Prod.fst).Nodup →
      (∀ e ∈ files, e.1 ≠ n → p e = false) →
      (insertEntry files n v).filter p = [(n, v)] := by
  intro files n v hp
  induction files with
  | nil => intro _ _; simp [insertEntry, hp]
  | cons x rest ih =>
    intro hnodup huniq
    have hnodup2 : (x.1 :: rest.map Prod.fst).Nodup := by simpa using hnodup
    have hnd := List.nodup_cons.mp hnodup2
    by_cases hx : x.1 = n
    · rw [show insertEntry (x :: rest) n v = (n, v) :: rest from by
        simp [insertEntry, hx]]
      rw [List.filter_cons_of_pos (by simpa using hp)]
      have hall : ∀ e ∈ rest, p e = false := by
        intro e he
        apply huniq e (by simp [he])
        intro heq
        have hmem : e.1 ∈ rest.map Prod.fst := List.mem_map.mpr ⟨e, he, rfl⟩
        rw [heq, ← hx] at hmem
        exact hnd.1 hmem
      rw [List.filter_eq_nil_iff.mpr (by intro a ha; simp [hall a ha])]
    · rw [show insertEntry (x :: rest) n v = x :: insertEntry rest n v from by
        simp [insertEntry, hx]]
      have hpx : p x = false := huniq x (by simp) hx
      rw [List.filter_cons_of_neg (by simp [hpx])]
      exact ih hnd.2 (fun e he hne0 => huniq e (by simp [he]) hne0)

theorem json_name_ne_empty (a : String) : a ++ ".json" ≠ "" := by
  intro h
  have h2 : (a ++ ".json").data = [] := by rw [h]
  rw [String.data_append] at h2
  simp at h2

theorem strLeads_append_json (a : String) : strLeads a (a ++ ".json") = true := by
  unfold strLeads
  rw [String.data_append]
  exact leadsWith_append _ _

/-- C4 (amended): saving a conversation whose identifier contains no
path separator, into a directory snapshot with well-formed unique names
none of which extends the identifier (other than the conversation's own
file, which Save overwrites), and loading it back by its full identifier,
returns a conversation with identical identifier and ordered message
sequence. -/
theorem c4_save_load_roundtrip (files : List (String × String)) (th : Thread)
    (hsep : (th.id ++ ".json").data.contains '/' = false)
    (hne : ∀ e ∈ files, e.1 ≠ "")
    (hnodup : (files.map Prod.fst).Nodup)
    (huniq : ∀ e ∈ files, e.1 ≠ th.id ++ ".json" → strLeads th.id e.1 = false) :
    fsSave files th
      = .ok (insertEntry files (th.id ++ ".json") (String.mk (renderThread th)))
    ∧ fsLoad (insertEntry files (th.id ++ ".json") (String.mk (renderThread th))) th.id
      = .ok th := by
  constructor
  · rw [fsSave, if_neg (by rw [hsep]; simp)]
  · have hfi : (insertEntry files (th.id ++ ".json") (String.mk (renderThread th))).filter
        (fun e => strLeads th.id e.1)
        = [(th.id ++ ".json", String.mk (renderThread th))] :=
      filter_insertEntry _ files _ _ (by simpa using strLeads_append_json th.id)
        hnodup huniq
    have hne1 : ∀ e ∈ insertEntry files (th.id ++ ".json") (String.mk (renderThread th)),
        e.1 ≠ "" := by
      intro e he
      rcases mem_insertEntry files _ _ e he with h | h
      · rw [h]
        exact json_name_ne_empty th.id
      · exact hne e h
    rw [fsLoad_unique_match _ th.id _ hne1 hfi]
    rw [show parseThread (String.mk (renderThread th)) = some th from parseThread_render th]

/-- C4 (counterexample to the original claim): the identifier "a" is
unique among the stored entries (the only other stored conversation has
identifier "ab"), yet Save of the "a" conversation followed by Load on
the full identifier "a" returns the AmbiguousPrefix error instead of the
conversation, because the full identifier is a proper prefix of the other
stored name. -/
theorem c4_roundtrip_counterexample :
    fsSave [("ab.json", String.mk (renderThread { id := "ab", messages := [] }))]
        { id := "a", messages := [{ role := "user", content := "hi" }] }
      = .ok [ ("ab.json", String.mk (renderThread { id := "ab", messages := [] }))
            , ("a.json", String.mk (renderThread
                { id := "a", messages := [{ role := "user", content := "hi" }] })) ]
    ∧ fsLoad [ ("ab.json", String.mk (renderThread { id := "ab", messages := [] }))
             , ("a.json", String.mk (renderThread
                 { id := "a", messages := [{ role := "user", content := "hi" }] })) ] "a"
      = .error .ambiguous := by
  exact ⟨by rfl, by rfl⟩

theorem c4_save_load_roundtrip_witness :
    fsSave [("zz.json", "x")] { id := "t", messages := [{ role := "user", content := "hi" }] }
      = .ok (insertEntry [("zz.json", "x")] ("t" ++ ".json")
          (String.mk (renderThread { id := "t", messages := [{ role := "user", content := "hi" }] })))
    ∧ fsLoad (insertEntry [("zz.json", "x")] ("t" ++ ".json")
          (String.mk (renderThread { id := "t", messages := [{ role := "user", content := "hi" }] }))) "t"
      = .ok { id := "t", messages := [{ role := "user", content := "hi" }] } :=
  c4_save_load_roundtrip [("zz.json", "x")]
    { id := "t", messages := [{ role := "user", content := "hi" }] }
    (by decide) (by decide) (by decide) (by decide)

/-- C7 (confirmed): when a streaming call ends successfully, a non-empty
accumulated text appends exactly one assistant message carrying that text
and persists the conversation through the store, while an empty text
appends nothing and persists nothing — the store and conversation are
returned unchanged — even when citations are present. -/
theorem c7_persist_iff_nonempty (files : List (String × String)) (th : Thread)
    (content : String) (cits : List String) (res : List (String × String) × Thread)
    (h : handleCompletionResponse files th content cits = .ok res) :
    (content = "" → res = (files, th)) ∧
    (content ≠ "" →
      res.2.messages = th.messages ++ [{ role := "assistant", content := content }] ∧
      fsSave files res.2 = .ok res.1) := by
  constructor
  · intro hc
    subst hc
    simp [handleCompletionResponse] at h
    exact h.symm
  · intro hc
    rw [handleCompletionResponse, if_pos hc] at h
    cases hs : fsSave files { th with messages := th.messages
        ++ [{ role := "assistant", content := content }] } with
    | error e => rw [hs] at h; exact absurd h (by simp)
    | ok files1 =>
      rw [hs] at h
      simp only [Except.ok.injEq] at h
      rw [← h]
      exact ⟨rfl, hs⟩

theorem c7_persist_iff_nonempty_witness :
    (({ id := "t", messages := [ { role := "user", content := "q" }
                               , { role := "assistant", content := "hi" } ] } : Thread).messages
      = ({ id := "t", messages := [{ role := "user", content := "q" }] } : Thread).messages
          ++ [{ role := "assistant", content := "hi" }])
    ∧ fsSave []
        { id := "t", messages := [ { role := "user", content := "q" }
                                 , { role := "assistant", content := "hi" } ] }
      = .ok [("t.json", String.mk (renderThread
          { id := "t", messages := [ { role := "user", content := "q" }
                                   , { role := "assistant", content := "hi" } ] }))] :=
  (c7_persist_iff_nonempty [] { id := "t", messages := [{ role := "user", content := "q" }] }
    "hi" ["a.com"]
    ( [("t.json", String.mk (renderThread
        { id := "t", messages := [ { role := "user", content := "q" }
                                 , { role := "assistant", content := "hi" } ] }))]
    , { id := "t", messages := [ { role := "user", content := "q" }
                               , { role := "assistant", content := "hi" } ] })
    (by rfl)).2 (by decide)

theorem emitterStep_inv {s t : EmitterState} (h : EmitterStep s t) :
    t.emitted ++ t.queue ++ t.pending = s.emitted ++ s.queue ++ s.pending := by
  cases h with
  | send c pending queue emitted hlen => simp
  | close queue emitted => rfl
  | recv c pending queue emitted closed => simp

theorem emitterStep_closed {s t : EmitterState} (h : EmitterStep s t)
    (hs : s.closed = true → s.pending = []) : t.closed = true → t.pending = [] := by
  cases h with
  | send c pending queue emitted hlen => intro hc; exact absurd hc (by simp)
  | close queue emitted => intro _; rfl
  | recv c pending queue emitted closed => intro hc; exact hs hc

theorem emitterReaches_inv {s t : EmitterState} (h : emitterReaches s t) :
    t.emitted ++ t.queue ++ t.pending = s.emitted ++ s.queue ++ s.pending
    ∧ ((s.closed = true → s.pending = []) → (t.closed = true → t.pending = [])) := by
  induction h with
  | refl => exact ⟨rfl, fun hs => hs⟩
  | tail hstep hlast ih =>
    exact ⟨by rw [emitterStep_inv hlast, ih.1],
      fun hs => emitterStep_closed hlast (ih.2 hs)⟩

theorem emitter_drain (queue : List Char) :
    ∀ (pending emitted : List Char) (closed : Bool),
      emitterReaches ⟨pending, queue, emitted, closed⟩
        ⟨pending, [], emitted ++ queue, closed⟩ := by
  induction queue with
  | nil => intro pending emitted closed; simpa using Relation.ReflTransGen.refl
  | cons c q ih =>
    intro pending emitted closed
    refine Relation.ReflTransGen.head (EmitterStep.recv c pending q emitted closed) ?_
    simpa [List.append_assoc] using ih pending (emitted ++ [c]) closed

/-- C9 (confirmed in the interleaving model): for every submitted
character sequence and every interleaved run of producer and consumer,
(a) whenever the consumer reaches its graceful exit — channel closed and
drained — the display has received exactly the submitted sequence, in
order, with no character lost or duplicated, and (b) from any
configuration where the producer has closed the channel, the consumer can
drain the remaining queued characters and reach that exit, again having
emitted exactly the submitted sequence. -/
theorem c9_paced_emitter_faithful (submitted : List Char) (s : EmitterState)
    (hreach : emitterReaches (emitterInit submitted) s) :
    (emitterDone s → s.emitted = submitted) ∧
    (s.closed = true →
      ∃ t, emitterReaches s t ∧ emitterDone t ∧ t.emitted = submitted) := by
  have hinv := emitterReaches_inv hreach
  have hflow : s.emitted ++ s.queue ++ s.pending = submitted := by
    rw [hinv.1]
    simp [emitterInit]
  have hclosed : s.closed = true → s.pending = [] :=
    hinv.2 (by intro hc; exact absurd hc (by simp [emitterInit]))
  constructor
  · intro hdone
    have hp := hclosed hdone.1
    rw [hdone.2, hp] at hflow
    simpa using hflow
  · intro hc
    have hp := hclosed hc
    refine ⟨⟨s.pending, [], s.emitted ++ s.queue, s.closed⟩, ?_, ?_, ?_⟩
    · have := emitter_drain s.queue s.pending s.emitted s.closed
      simpa using this
    · exact ⟨hc, rfl⟩
    · rw [hp] at hflow
      simpa using hflow

theorem c9_paced_emitter_faithful_witness :
    emitterDone ⟨[], [], ['h', 'i'], true⟩ ∧ (['h', 'i'] : List Char) = ['h', 'i'] :=
  ⟨⟨rfl, rfl⟩,
    (c9_paced_emitter_faithful ['h', 'i'] ⟨[], [], ['h', 'i'], true⟩
      (Relation.ReflTransGen.head (EmitterStep.send 'h' ['i'] [] [] (by decide))
        (Relation.ReflTransGen.head (EmitterStep.send 'i' [] ['h'] [] (by decide))
          (Relation.ReflTransGen.head (EmitterStep.close ['h', 'i'] [])
            (Relation.ReflTransGen.head (EmitterStep.recv 'h' [] ['i'] [] true)
              (Relation.ReflTransGen.head (EmitterStep.recv 'i' [] [] ['h'] true)
                Relation.ReflTransGen.refl)))))).1 ⟨rfl, rfl⟩⟩

theorem c2_done_exactly_on_transport_end_witness :
    isDone (readSSEAux initState
      [.frame "data: \x7b\"choices\":[\x7b\"delta\":\x7b\"content\":\"x\"\x7d,\"finish_reason\":\"stop\"\x7d]\x7d".data])
      = false :=
  (c2_done_exactly_on_transport_end initState
    [.frame "data: \x7b\"choices\":[\x7b\"delta\":\x7b\"content\":\"x\"\x7d,\"finish_reason\":\"stop\"\x7d]\x7d".data]).mpr
    (by decide)

theorem c5_checkPath_separator_bounded_witness :
    (checkPath "/a/b" "/a/b" "x.json").isOk = true :=
  ((c5_checkPath_separator_bounded).1 "/a/b" "/a/b" "x.json").mpr (Or.inr (by decide))

theorem c6_citations_last_nonempty_witness :
    (processFrames initState
      [ "data: \x7b\"citations\":[\"a.com\",\"b.com\"],\"choices\":[]\x7d".data
      , "data: \x7b\"citations\":[\"c.com\"],\"choices\":[]\x7d".data ]).citations
      = ["c.com"] :=
  (c6_citations_last_nonempty).2

end Plexctl
